import Mathlib

/-!
Verification of the stockscreener repository's core pipeline against its
natural-language specification.  Python functions are shallowly embedded as
Lean definitions; ISO date strings (`YYYY-MM-DD`) are encoded as natural
numbers (`20230630` for `2023-06-30`), an order-isomorphic encoding since the
code compares such strings lexicographically.  Python floats are modelled as
real numbers (or rationals where the claim is purely order/field-algebraic),
and `None`/missing JSON fields as `Option`.
-/

namespace StockScreener

/-! ## Point-in-time filtering (`historical_data.py`) -/

/-- One financial-statement row as consumed by
`HistoricalDataFilter.filter_financial_statements`: only the three date
fields matter.  `none` models an absent (or empty, hence falsy) field. -/
structure Stmt where
  date : Option Nat
  fillingDate : Option Nat
  reportedDate : Option Nat
deriving Repr, DecidableEq

/-- Embedding of the loop body of `filter_financial_statements`
(`historical_data.py` lines 22-54): `filling_date = stmt.get('fillingDate',
stmt.get('date'))`, `reported_date = stmt.get('reportedDate',
stmt.get('date'))`; drop when both are falsy; otherwise keep iff the
publish date (`max` of the two when both exist, else whichever exists)
is `<=` the cutoff. -/
def filter_financial_statements (cutoff : Nat) : List Stmt → List Stmt
  | [] => []
  | stmt :: rest =>
    let filling_date := stmt.fillingDate <|> stmt.date
    let reported_date := stmt.reportedDate <|> stmt.date
    if filling_date = none ∧ reported_date = none then
      filter_financial_statements cutoff rest
    else
      let publish_date :=
        match filling_date, reported_date with
        | some f, some r => max f r
        | _, _ => (filling_date <|> reported_date).getD 0
      if publish_date ≤ cutoff then
        stmt :: filter_financial_statements cutoff rest
      else
        filter_financial_statements cutoff rest

/-- Claim-side keep predicate, written from the spec's words: keep a row iff
`max(filling_date, reported_date) <= as_of` (with each of the two dates
falling back to the row's `date` when absent), and drop a row in which
neither date is present. -/
def claim_keep (asOf : Nat) (s : Stmt) : Bool :=
  let filling := s.fillingDate <|> s.date
  let reported := s.reportedDate <|> s.date
  match filling, reported with
  | none, none => false
  | some f, none => decide (f ≤ asOf)
  | none, some r => decide (r ≤ asOf)
  | some f, some r => decide (max f r ≤ asOf)

/-! ## Comprehensive-data bundle filtering (`historical_data.py` lines
124-184) and the aux-info preparers (`data_processing.py`). -/

/-- One earnings row: `filter_earnings` reads `actual` and `date`;
`prepare_earnings_info` reads the eps/revenue actual/estimated fields. -/
structure EarnRow where
  actual : Option ℚ
  date : Option Nat
  epsActual : Option ℚ
  epsEstimated : Option ℚ
  revenueActual : Option ℚ
  revenueEstimated : Option ℚ
deriving Repr, DecidableEq

/-- One historical-price row; `filter_price_data` reads only `date`
(`p.get('date', '')`, the empty-string default being encoded as `0`,
the bottom of the date order). -/
structure PriceRow where
  date : Option Nat
deriving Repr, DecidableEq

/-- One side (`bullish` or `bearish`) of the social-sentiment payload. -/
structure SentSide where
  sentiment : Option ℚ
  lastSentiment : Option ℚ
deriving Repr, DecidableEq

/-- The social-sentiment payload built by `get_social_sentiment`:
a dict with `bullish` and `bearish` entries, each possibly `None`. -/
structure SentVal where
  bullish : Option SentSide
  bearish : Option SentSide
deriving Repr, DecidableEq

/-- Values stored in a comprehensive-data dictionary.  The Python dict is
heterogeneous; each key's consumer assumes the matching shape, so the sum
type records the shapes actually used.  `raw` stands for payloads the
filter passes through untouched (profile, quote, ...). -/
inductive CVal where
  | stmts : List Stmt → CVal
  | earns : List EarnRow → CVal
  | prices : List PriceRow → CVal
  | sent : SentVal → CVal
  | raw : Nat → CVal
deriving Repr, DecidableEq

/-- A Python dict keyed by strings, as an association list (first binding
wins, matching dict-lookup on the dicts the code builds, which never
repeat a key). -/
abbrev Dict := List (String × CVal)

/-- Lookup of `d[k]` / `k in d`. -/
def dictGet (d : Dict) (k : String) : Option CVal :=
  (d.find? (fun p => p.1 == k)).map (fun p => p.2)

/-- Embedding of `HistoricalDataFilter.filter_earnings`: keep a row iff
`actual` is not `None` and its `date` exists and is `<=` the cutoff. -/
def filter_earnings (cutoff : Nat) (earnings : List EarnRow) : List EarnRow :=
  earnings.filter (fun e =>
    e.actual.isSome &&
      match e.date with
      | some d => decide (d ≤ cutoff)
      | none => false)

/-- Embedding of `HistoricalDataFilter.filter_price_data`:
keep iff `p.get('date', '') <= cutoff` (missing date → empty string,
encoded `0`, which always passes). -/
def filter_price_data (cutoff : Nat) (prices : List PriceRow) : List PriceRow :=
  prices.filter (fun p => decide (p.date.getD 0 ≤ cutoff))

/-- Embedding of `HistoricalDataFilter.should_exclude_ttm_data`: TTM data is
excluded when `now - as_of` is more than 7 days; the day difference is
passed in as a parameter. -/
def should_exclude_ttm_data (daysAgo : ℤ) : Bool :=
  decide (daysAgo > 7)

/-- Apply `filter_financial_statements` to a statement-shaped value (the
Python code assumes the value is a list of rows). -/
def filterStmtsVal (cutoff : Nat) : CVal → CVal
  | .stmts rs => .stmts (filter_financial_statements cutoff rs)
  | v => v

/-- Apply `filter_earnings` to an earnings-shaped value. -/
def filterEarnsVal (cutoff : Nat) : CVal → CVal
  | .earns rs => .earns (filter_earnings cutoff rs)
  | v => v

/-- Apply `filter_price_data` to a price-shaped value. -/
def filterPricesVal (cutoff : Nat) : CVal → CVal
  | .prices rs => .prices (filter_price_data cutoff rs)
  | v => v

/-- Copy `key` from `d` into the output after transforming with `f`, but
only when the key is present — the `if key in comprehensive_data` pattern. -/
def copyKeyWith (d : Dict) (key : String) (f : CVal → CVal) : Dict :=
  match dictGet d key with
  | some v => [(key, f v)]
  | none => []

/-- Embedding of `filter_comprehensive_data_historical`
(`historical_data.py` lines 124-184): builds a fresh dict containing the
filtered statement lists, `ratios`/`key_metrics`, the (possibly emptied)
TTM lists, filtered `earnings` and `historical_prices`, and the four
pass-through keys.  `cutoff` is the encoded as-of date and `daysAgo` the
whole-day difference `now - as_of`. -/
def filter_comprehensive_data_historical (cutoff : Nat) (daysAgo : ℤ)
    (d : Dict) : Dict :=
  copyKeyWith d "income_statements" (filterStmtsVal cutoff) ++
  copyKeyWith d "balance_sheets" (filterStmtsVal cutoff) ++
  copyKeyWith d "cash_flow_statements" (filterStmtsVal cutoff) ++
  copyKeyWith d "ratios" (filterStmtsVal cutoff) ++
  copyKeyWith d "key_metrics" (filterStmtsVal cutoff) ++
  (if should_exclude_ttm_data daysAgo then
    [("ratios_ttm", CVal.stmts []), ("key_metrics_ttm", CVal.stmts [])]
  else
    [("ratios_ttm", (dictGet d "ratios_ttm").getD (CVal.stmts [])),
     ("key_metrics_ttm", (dictGet d "key_metrics_ttm").getD (CVal.stmts []))]) ++
  copyKeyWith d "earnings" (filterEarnsVal cutoff) ++
  copyKeyWith d "historical_prices" (filterPricesVal cutoff) ++
  copyKeyWith d "profile" id ++
  copyKeyWith d "quote" id ++
  copyKeyWith d "analyst_ratings" id ++
  copyKeyWith d "insider_trading" id

/-- Result record of `prepare_earnings_info` (`models.EarningsInfo`
identification fields only, as far as that function populates them). -/
structure EarningsInfo where
  latest_eps_actual : ℚ
  latest_eps_estimated : ℚ
  latest_revenue_actual : ℚ
  latest_revenue_estimated : ℚ
  next_earnings_date : Option Nat
deriving Repr, DecidableEq

/-- Embedding of `safe_float` on an optional numeric field: a missing value
becomes `0.0`. -/
def safe_float (v : Option ℚ) : ℚ := v.getD 0

/-- Embedding of `prepare_earnings_info` (`data_processing.py` lines
237-261): reads `comprehensive_data.get('earnings_calendar', [])`, returns
`None` when that list is empty (or the key absent), otherwise builds the
info from the first row. -/
def prepare_earnings_info (d : Dict) : Option EarningsInfo :=
  match dictGet d "earnings_calendar" with
  | some (.earns (mostRecent :: _)) =>
    some { latest_eps_actual := safe_float mostRecent.epsActual
           latest_eps_estimated := safe_float mostRecent.epsEstimated
           latest_revenue_actual := safe_float mostRecent.revenueActual
           latest_revenue_estimated := safe_float mostRecent.revenueEstimated
           next_earnings_date := mostRecent.date }
  | _ => none

/-- Result record of `prepare_sentiment_info`. -/
structure SentimentInfo where
  bullish_percentage : ℚ
  bearish_percentage : ℚ
  neutral_percentage : ℚ
  sentiment_change : ℚ
deriving Repr, DecidableEq

/-- Embedding of `prepare_sentiment_info` (`data_processing.py` lines
264-283): reads `comprehensive_data.get('social_sentiment', {})`; returns
`None` when the key is absent (empty dict) or both `bullish` and `bearish`
are falsy; otherwise computes the percentages. -/
def prepare_sentiment_info (d : Dict) : Option SentimentInfo :=
  match dictGet d "social_sentiment" with
  | some (.sent s) =>
    match s.bullish, s.bearish with
    | none, none => none
    | bullish, bearish =>
      let bullish_percentage := match bullish with
        | some b => safe_float b.sentiment
        | none => 0
      let bearish_percentage := match bearish with
        | some b => safe_float b.sentiment
        | none => 0
      let neutral_percentage := max 0 (100 - bullish_percentage - bearish_percentage)
      let last_bullish := match bullish with
        | some b => safe_float b.lastSentiment
        | none => 0
      let sentiment_change :=
        if last_bullish > 0 then bullish_percentage - last_bullish else 0
      some { bullish_percentage, bearish_percentage, neutral_percentage,
             sentiment_change }
  | _ => none

/-! ## Growth analyzer (`analyzers/growth_analyzer.py`) and the CAGR helper
(`data_processing.py` lines 24-41).  Python floats become real numbers;
`**` on a positive base is `Real.rpow`; `math.log` is `Real.log`. -/

/-- Embedding of `calculate_cagr(end_value, start_value, periods)`:
`0.0` when either endpoint or the period count is non-positive, otherwise
`(end_value / start_value) ** (1 / periods) - 1`. -/
noncomputable def calculate_cagr (end_value start_value : ℝ) (periods : ℤ) : ℝ :=
  if start_value ≤ 0 ∨ end_value ≤ 0 ∨ periods ≤ 0 then 0
  else (end_value / start_value) ^ ((1 : ℝ) / (periods : ℝ)) - 1

/-- Embedding of `GrowthAnalyzer._calculate_magnitude_score(actual_cagr,
target_cagr)` (`growth_analyzer.py` lines 109-133): `0` for non-positive
target or actual, `1` when `actual/target >= 2`, otherwise the
log-scaled `0.5 * (1 + log(ratio + 0.1) / log(2))`. -/
noncomputable def calculate_magnitude_score (actual_cagr target_cagr : ℝ) : ℝ :=
  if target_cagr ≤ 0 then 0
  else if actual_cagr ≤ 0 then 0
  else if actual_cagr / target_cagr ≥ 2 then 1
  else 0.5 * (1 + Real.log (actual_cagr / target_cagr + 0.1) / Real.log 2)

/-- Embedding of the `revenue_cagr` computation in `GrowthAnalyzer.analyze`
(`growth_analyzer.py` line 60): `calculate_cagr(metrics.revenue[0],
metrics.revenue[-1], len(metrics.revenue))` when the series has more than
one element, else `0`.  Note the code passes `len(series)` — not
`len(series) - 1` — as the period count. -/
noncomputable def revenue_cagr (revenue : List ℝ) : ℝ :=
  if revenue.length > 1 then
    calculate_cagr (revenue.headD 0) (revenue.getLastD 0) revenue.length
  else 0

/-- The revenue magnitude sub-score of `GrowthAnalyzer.analyze` (line 66)
with the default revenue target rate `0.20` from the analyzer's
constructor (`growth_analyzer.py` lines 28-32). -/
noncomputable def magnitude_score_revenue (revenue : List ℝ) : ℝ :=
  calculate_magnitude_score (revenue_cagr revenue) 0.20

/-! ## Initial filter of `screen_stocks` (`api/python/stock_screener.py`
lines 80-121). -/

/-- Helper: does the needle occur at the head of the haystack? -/
def startsWithSeq : List Char → List Char → Bool
  | _, [] => true
  | [], _ :: _ => false
  | a :: as, b :: bs => a == b && startsWithSeq as bs

/-- Helper: Python's `needle in haystack` on character lists. -/
def containsSeq (needle : List Char) : List Char → Bool
  | [] => needle.isEmpty
  | a :: t => startsWithSeq (a :: t) needle || containsSeq needle t

/-- ASCII upper-casing of one character, as Python's `str.upper` acts on the
ASCII exchange codes found in the data. -/
def pyCharUpper (c : Char) : Char :=
  if 'a' ≤ c ∧ c ≤ 'z' then Char.ofNat (c.toNat - 32) else c

/-- Python `s.upper()` on a character list. -/
def pyUpper (s : List Char) : List Char := s.map pyCharUpper

/-- Python `needle in s.upper()` for strings. -/
def strContainsUpper (s needle : String) : Bool :=
  containsSeq needle.toList (pyUpper s.toList)

/-- One company profile as read by the initial filter; `none` models a
missing key, and string fields carry the code's `get` defaults at use
sites. -/
structure Profile where
  symbol : String
  exchangeShortName : Option String
  mktCap : Option ℚ
  sector : Option String
  industry : Option String
  companyName : Option String
deriving Repr, DecidableEq

/-- An entry of `filtered_stocks` as appended by the loop. -/
structure FilteredStock where
  symbol : String
  company_name : String
  sector : String
  industry : String
  market_cap : ℚ
deriving Repr, DecidableEq

/-- The `initial_filters` keys the loop reads: `market_cap_min` (default
`0`), `market_cap_max` (default `float('inf')`, modelled as `none`), and
the `exclude_financial_sector` flag. -/
structure InitialFilters where
  market_cap_min : Option ℚ
  market_cap_max : Option ℚ
  exclude_financial_sector : Bool
deriving Repr, DecidableEq

/-- Embedding of one iteration of the initial-filter loop of
`screen_stocks` (`api/python/stock_screener.py` lines 80-121): skip when
the profile is missing, when the symbol has 5 letters and ends in `X`,
when the upper-cased exchange contains `MUTUAL` or `FUND`, when the market
cap is missing or falsy, when it violates the bounds, or when the sector
is excluded; otherwise emit the filtered-stock record. -/
def initial_filter_step (filters : InitialFilters)
    (profileOf : String → Option Profile) (symbol : String) :
    Option FilteredStock :=
  match profileOf symbol with
  | none => none
  | some profile =>
    let exchange_type := profile.exchangeShortName.getD ""
    if symbol.length == 5 && symbol.back == 'X' then none
    else if strContainsUpper exchange_type "MUTUAL" ||
        strContainsUpper exchange_type "FUND" then none
    else
      match profile.mktCap with
      | none => none
      | some market_cap =>
        if market_cap == 0 then none
        else
          let sector := profile.sector.getD "N/A"
          let industry := profile.industry.getD "N/A"
          let company_name := profile.companyName.getD symbol
          let capOk := decide (filters.market_cap_min.getD 0 ≤ market_cap) &&
            (match filters.market_cap_max with
              | some mx => decide (market_cap ≤ mx)
              | none => true)
          if !capOk then none
          else if filters.exclude_financial_sector &&
              sector == "Financial Services" then none
          else some ⟨symbol, company_name, sector, industry, market_cap⟩

/-- The whole initial-filter loop: the surviving records in input order. -/
def screen_initial_filter (filters : InitialFilters)
    (profileOf : String → Option Profile) (stocks : List String) :
    List FilteredStock :=
  stocks.filterMap (initial_filter_step filters profileOf)

/-- Claim-side survival predicate, phrased from the spec's enumeration: a
symbol (with a known profile) survives iff it is not a 5-letter symbol
ending in `X`, its exchange does not contain `MUTUAL`/`FUND`
case-insensitively, its market cap is present, non-zero and within the
bounds, and it is not in an excluded sector. -/
def claim_keep_stock (filters : InitialFilters)
    (profileOf : String → Option Profile) (symbol : String) : Bool :=
  match profileOf symbol with
  | none => false
  | some p =>
    let exchange := p.exchangeShortName.getD ""
    !(symbol.length == 5 && symbol.back == 'X') &&
    !(strContainsUpper exchange "MUTUAL" || strContainsUpper exchange "FUND") &&
    (match p.mktCap with
      | none => false
      | some mc =>
        !(mc == 0) && decide (filters.market_cap_min.getD 0 ≤ mc) &&
          (match filters.market_cap_max with
            | some mx => decide (mc ≤ mx)
            | none => true)) &&
    !(filters.exclude_financial_sector && p.sector.getD "N/A" == "Financial Services")

/-- Concrete profile table for the S6 scenario: `AAPL` and `QQQX` on
`NASDAQ`, `ABC` with `exchangeShortName = "MUTUAL"`, all with market cap
`1000` (inside the default bounds). -/
def s6_profile_map : String → Option Profile := fun s =>
  if s == "AAPL" then
    some ⟨"AAPL", some "NASDAQ", some 1000, some "Technology",
      some "Consumer Electronics", some "Apple Inc."⟩
  else if s == "QQQX" then
    some ⟨"QQQX", some "NASDAQ", some 1000, some "Financial",
      some "Asset Management", some "Nuveen NASDAQ 100"⟩
  else if s == "ABC" then
    some ⟨"ABC", some "MUTUAL", some 1000, some "Technology",
      some "Conglomerates", some "ABC Co"⟩
  else none

/-- The S6 filter settings: bounds that every profile passes and no sector
exclusion. -/
def s6_filters : InitialFilters := ⟨some 0, none, false⟩

/-! ## Scoring weights and base quality (`quality_scorer.py` lines 28-34
and 83-88, `config.py` lines 234-236). -/

/-- The four axis weights read from `scoring.weights`. -/
structure ScoringWeights where
  growth_quality : ℚ
  risk_quality : ℚ
  valuation : ℚ
  sentiment : ℚ
deriving Repr, DecidableEq

/-- Sum of the four axis weights. -/
def ScoringWeights.total (w : ScoringWeights) : ℚ :=
  w.growth_quality + w.risk_quality + w.valuation + w.sentiment

/-- The default weights of `QualityScorer.__init__`. -/
def default_scoring_weights : ScoringWeights :=
  ⟨40 / 100, 25 / 100, 20 / 100, 15 / 100⟩

/-- Embedding of `self.weights = self.config.get('scoring', {}).get(
'weights', default)`: the configured weights are used verbatim when the
key is present, with no renormalization anywhere (`get_scoring_weights` in
`config.py` likewise returns the raw dict). -/
def scorer_weights (cfg : Option ScoringWeights) : ScoringWeights :=
  cfg.getD default_scoring_weights

/-- Embedding of the weighted sum forming `base_quality_score`
(`quality_scorer.py` lines 83-88). -/
def base_quality_score (w : ScoringWeights)
    (growth_score risk_score valuation_score sentiment_score : ℚ) : ℚ :=
  w.growth_quality * growth_score + w.risk_quality * risk_score +
    w.valuation * valuation_score + w.sentiment * sentiment_score

/-! ## Sector percentiles (`quality_scorer.py` lines 138-223).  One sector
group and one higher-is-better metric path (`reverse=True`): the code
extracts `(stock, value)` pairs, sorts them descending by value (Python's
sort is stable), and assigns `100 * i / (total - 1)` to position `i`
(`50` to a singleton). -/

/-- A `(stock, value)` pair: `idx` identifies the stock by its input
position, `value` is the extracted metric value. -/
structure PRec where
  idx : Nat
  value : ℚ
deriving Repr, DecidableEq

/-- Stable descending insertion: the incoming element (later in input
order) goes after every element whose value is `≥` its own, matching the
stability of Python's `list.sort(key=..., reverse=True)`. -/
def insertLater (x : PRec) : List PRec → List PRec
  | [] => [x]
  | y :: ys => if y.value ≥ x.value then y :: insertLater x ys else x :: y :: ys

/-- Left fold of stable insertion over the input order. -/
def sortDescAux : List PRec → List PRec → List PRec
  | acc, [] => acc
  | acc, x :: xs => sortDescAux (insertLater x acc) xs

/-- Python's `values.sort(key=lambda x: x[1], reverse=True)`. -/
def sortDesc (l : List PRec) : List PRec := sortDescAux [] l

/-- The assignment loop of `_calculate_metric_percentiles` (lines 215-223):
position `i` in the sorted list gets `100 * (i / (total - 1))` when
`total > 1`, else `50`. -/
def percentiles_from (total : Nat) : Nat → List PRec → List (PRec × ℚ)
  | _, [] => []
  | i, st :: rest =>
    (st, if total > 1 then 100 * (i : ℚ) / ((total : ℚ) - 1) else 50) ::
      percentiles_from total (i + 1) rest

/-- Embedding of `_calculate_metric_percentiles` for one sector group and
one higher-is-better metric: sort descending, then assign positional
percentiles. -/
def calculate_metric_percentiles (stocks : List PRec) : List (PRec × ℚ) :=
  percentiles_from (sortDesc stocks).length 0 (sortDesc stocks)

/-! ## Adaptive rate limiter (`src/rate_limiter.py` lines 48-82).  Time
instants are rationals; the two `time.time()` reads inside the 429 branch
are modelled as the single instant `now`. -/

/-- The `handle_response`-relevant fields of `AdaptiveRateLimiter`. -/
structure LimiterState where
  last_429_time : Option ℚ
  backoff_until : Option ℚ
deriving Repr, DecidableEq

/-- Response headers as an association list; lookup is Python
`headers.get`. -/
abbrev Headers := List (String × String)

/-- Python `headers.get(k)`. -/
def headersGet (hs : Headers) (k : String) : Option String :=
  (hs.find? (fun p => p.1 == k)).map (fun p => p.2)

/-- Python `str.isdigit`: non-empty and all characters digits. -/
def pyIsDigit (s : String) : Bool :=
  !s.isEmpty && s.toList.all Char.isDigit

/-- Python `int(s)` on a digit string. -/
def pyStrToNat (s : String) : Nat :=
  s.toList.foldl (fun acc c => acc * 10 + (c.toNat - 48)) 0

/-- The exponential-backoff fallback of the 429 branch: `min(120, 30)` when
a prior 429 happened less than 10 s ago, else `10`. -/
def fallback_wait (st : LimiterState) (now : ℚ) : ℚ :=
  match st.last_429_time with
  | some t => if now - t < 10 then min 120 30 else 10
  | none => 10

/-- The `wait_seconds` computed by the 429 branch of `handle_response`:
when `Retry-After` (either spelling) is present and truthy, its integer
value if it is all digits, else the `60` fallback; otherwise the
quick-succession rule. -/
def wait_seconds (st : LimiterState) (headers : Headers) (now : ℚ) : ℚ :=
  match headersGet headers "Retry-After" <|> headersGet headers "retry-after" with
  | some ra =>
    if ra == "" then fallback_wait st now
    else if pyIsDigit ra then (pyStrToNat ra : ℚ)
    else 60
  | none => fallback_wait st now

/-- Embedding of `AdaptiveRateLimiter.handle_response`: on a 429 it sets
`backoff_until = now + wait` and `last_429_time = now`; on every other
status the two fields are unchanged (the 200 branch only sleeps). -/
def handle_response (st : LimiterState) (status : Nat) (headers : Headers)
    (now : ℚ) : LimiterState :=
  if status == 429 then
    { last_429_time := some now,
      backoff_until := some (now + wait_seconds st headers now) }
  else st

/-- Claim-side wait, phrased from the claim's words: the `Retry-After`
value in seconds when that header is present and numeric, and otherwise
`30` if a prior 429 occurred within the last 10 seconds, else `10`. -/
def claim_wait (st : LimiterState) (headers : Headers) (now : ℚ) : ℚ :=
  match headersGet headers "Retry-After" <|> headersGet headers "retry-after" with
  | some ra =>
    if pyIsDigit ra then (pyStrToNat ra : ℚ)
    else match st.last_429_time with
      | some t => if now - t < 10 then 30 else 10
      | none => 10
  | none =>
    match st.last_429_time with
    | some t => if now - t < 10 then 30 else 10
    | none => 10

/-- Amended claim-side wait: as `claim_wait`, except that a present,
truthy but non-numeric `Retry-After` yields `60`. -/
def claim_wait_amended (st : LimiterState) (headers : Headers) (now : ℚ) : ℚ :=
  match headersGet headers "Retry-After" <|> headersGet headers "retry-after" with
  | some ra =>
    if pyIsDigit ra then (pyStrToNat ra : ℚ)
    else if ra == "" then
      match st.last_429_time with
      | some t => if now - t < 10 then 30 else 10
      | none => 10
    else 60
  | none =>
    match st.last_429_time with
    | some t => if now - t < 10 then 30 else 10
    | none => 10

/-! ## Fetch with bounded retries (`api_client.py` lines 30-88, with
`MAX_RETRIES = 3` from `config.py`). -/

/-- `MAX_RETRIES` from `config.py` line 13. -/
def MAX_RETRIES : Nat := 3

/-- The possible outcomes of one HTTP attempt, as the `fetch` loop
distinguishes them: a 200 with a JSON payload (modelled opaquely as a
natural number), a 429, a 404, another HTTP status, a timeout, or a
transport error. -/
inductive Resp where
  | ok : Nat → Resp
  | tooMany : Resp
  | notFound : Resp
  | httpErr : Resp
  | timeout : Resp
  | transportErr : Resp
deriving Repr, DecidableEq

/-- Is this outcome one the loop retries (increments `retries` on)? -/
def Resp.retryable : Resp → Bool
  | .ok _ => false
  | .notFound => false
  | _ => true

/-- The cache as an association list from URL to payload. -/
abbrev Cache := List (String × Nat)

/-- `cache_manager.get(url)`. -/
def cacheGet (c : Cache) (url : String) : Option Nat :=
  (c.find? (fun p => p.1 == url)).map (fun p => p.2)

/-- `cache_manager.set(url, data)`: the new binding shadows any old one. -/
def cacheSet (c : Cache) (url : String) (v : Nat) : Cache :=
  (url, v) :: c

/-- Result of a `fetch` call: the returned payload (or `None`), the cache
afterwards, and how many HTTP attempts were issued. -/
structure FetchOutcome where
  result : Option Nat
  cache : Cache
  attempts : Nat
deriving Repr, DecidableEq

/-- Embedding of the `while retries < MAX_RETRIES` loop of
`APIClient.fetch`: `responses i` is the outcome of the `i`-th attempt;
`fuel = MAX_RETRIES - retries` makes the recursion structural.  A 200
stores the payload (write-through) and returns it; a 404 returns `None`
at once; every other outcome increments `retries` and loops; an exhausted
budget returns `None`. -/
def fetch_loop (responses : Nat → Resp) (url : String) (cache : Cache) :
    Nat → Nat → FetchOutcome
  | retries, 0 => ⟨none, cache, retries⟩
  | retries, fuel + 1 =>
    match responses retries with
    | .ok p => ⟨some p, cacheSet cache url p, retries + 1⟩
    | .notFound => ⟨none, cache, retries + 1⟩
    | _ => fetch_loop responses url cache (retries + 1) fuel

/-- Embedding of `APIClient.fetch` with `use_cache = True`: return the
cached payload on a hit (no attempt issued), else run the retry loop. -/
def fetch (responses : Nat → Resp) (url : String) (cache : Cache) :
    FetchOutcome :=
  match cacheGet cache url with
  | some v => ⟨some v, cache, 0⟩
  | none => fetch_loop responses url cache 0 MAX_RETRIES

/-! ## Batch normalization of quality scores
(`api/python/stock_screener.py` lines 218-231). -/

/-- Python `min(xs)` on a non-empty list (`0` as an unused placeholder for
the empty list, which the code guards against). -/
def pyListMin : List ℚ → ℚ
  | [] => 0
  | x :: xs => xs.foldl min x

/-- Python `max(xs)` on a non-empty list. -/
def pyListMax : List ℚ → ℚ
  | [] => 0
  | x :: xs => xs.foldl max x

/-- The per-result assignment of Step 6: `(x - min) / range` when the range
is positive, else `1.0`. -/
def norm_of (scores : List ℚ) (x : ℚ) : ℚ :=
  let min_score := pyListMin scores
  let max_score := pyListMax scores
  let score_range := max_score - min_score
  if score_range > 0 then (x - min_score) / score_range else 1

/-- Step 6 applied to the whole surviving batch (scores listed in the
emitted order). -/
def normalize_quality_scores (scores : List ℚ) : List ℚ :=
  scores.map (norm_of scores)

end StockScreener

namespace StockScreener

theorem filter_financial_statements_eq_filter (cutoff : Nat) (stmts : List Stmt) :
    filter_financial_statements cutoff stmts = stmts.filter (claim_keep cutoff) := by
  induction stmts with
  | nil => rfl
  | cons s rest ih =>
    rw [filter_financial_statements, List.filter_cons]
    rcases hf : s.fillingDate <|> s.date with _ | f <;>
      rcases hr : s.reportedDate <|> s.date with _ | r <;>
      simp only [claim_keep, hf, hr] <;>
      split <;> simp_all [ih]

/-- Raising `a ^ n` to the real power `1 / n` recovers `a` for `0 ≤ a`. -/
theorem pow_rpow_one_div (a : ℝ) (ha : 0 ≤ a) (n : ℕ) (hn : n ≠ 0) :
    ((a ^ n : ℝ) : ℝ) ^ ((1 : ℝ) / (n : ℝ)) = a := by
  rw [← Real.rpow_natCast a n, ← Real.rpow_mul ha]
  rw [mul_one_div, div_self (by exact_mod_cast hn), Real.rpow_one]

/-- A record emitted by the initial-filter step carries the input symbol. -/
theorem initial_filter_step_symbol {f : InitialFilters}
    {po : String → Option Profile} {s : String} {fs : FilteredStock}
    (h : initial_filter_step f po s = some fs) : fs.symbol = s := by
  unfold initial_filter_step at h
  cases hpo : po s <;> rw [hpo] at h
  · exact absurd h (by simp)
  · dsimp only at h
    repeat' split at h
    all_goals first
      | (injection h with h2; exact h2 ▸ rfl)
      | exact Option.noConfusion h

/-- The initial-filter step emits a record exactly when the claim-side
survival predicate holds. -/
theorem initial_filter_step_isSome (f : InitialFilters)
    (po : String → Option Profile) (s : String) :
    (initial_filter_step f po s).isSome = claim_keep_stock f po s := by
  unfold initial_filter_step claim_keep_stock
  cases hpo : po s
  · rfl
  case some p =>
    dsimp only
    by_cases h5 : (s.length == 5 && s.back == 'X') = true
    · simp [h5]
    · by_cases hex : (strContainsUpper (p.exchangeShortName.getD "") "MUTUAL" ||
          strContainsUpper (p.exchangeShortName.getD "") "FUND") = true
      · simp [h5, hex]
      · cases hmc : p.mktCap with
        | none => simp [h5, hex, hmc]
        | some mc =>
          by_cases h0 : (mc == 0) = true
          · simp [h5, hex, hmc, h0]
          · by_cases hcap : (decide (f.market_cap_min.getD 0 ≤ mc) &&
                (match f.market_cap_max with
                  | some mx => decide (mc ≤ mx)
                  | none => true)) = true
            · by_cases hfs : (f.exclude_financial_sector &&
                  p.sector.getD "N/A" == "Financial Services") = true
              · simp [h5, hex, hmc, h0, hcap, hfs]
              · simp [h5, hex, hmc, h0, hcap, hfs]
            · simp [h5, hex, hmc, h0, hcap]

/-- The symbols surviving the initial-filter loop are exactly those
satisfying the claim-side survival predicate, in input order. -/
theorem screen_initial_filter_symbols (f : InitialFilters)
    (po : String → Option Profile) (stocks : List String) :
    (screen_initial_filter f po stocks).map (fun fs => fs.symbol) =
      stocks.filter (claim_keep_stock f po) := by
  induction stocks with
  | nil => rfl
  | cons s rest ih =>
    have hiff := initial_filter_step_isSome f po s
    cases hstep : initial_filter_step f po s with
    | none =>
      rw [hstep] at hiff
      simp only [screen_initial_filter, List.filterMap_cons, hstep,
        List.filter_cons, ← hiff, Option.isSome_none, Bool.false_eq_true,
        if_false]
      exact ih
    | some fs =>
      rw [hstep] at hiff
      simp only [screen_initial_filter, List.filterMap_cons, hstep,
        List.filter_cons, ← hiff, Option.isSome_some, if_true,
        List.map_cons]
      rw [initial_filter_step_symbol hstep]
      simpa [screen_initial_filter] using congrArg (List.cons s) ih

/-- A `min`-fold is bounded by its initial accumulator. -/
theorem foldl_min_le_acc (xs : List ℚ) (a : ℚ) : xs.foldl min a ≤ a := by
  induction xs generalizing a with
  | nil => simp
  | cons x xs ih =>
    exact le_trans (ih (min a x)) (min_le_left a x)

/-- A `min`-fold is bounded by every list element. -/
theorem foldl_min_le_of_mem {xs : List ℚ} {x : ℚ} (hx : x ∈ xs) (a : ℚ) :
    xs.foldl min a ≤ x := by
  induction xs generalizing a with
  | nil => cases hx
  | cons y ys ih =>
    rcases List.mem_cons.mp hx with rfl | hmem
    · exact le_trans (foldl_min_le_acc ys (min a x)) (min_le_right a x)
    · exact ih hmem (min a y)

/-- A `min`-fold returns the accumulator or a list element. -/
theorem foldl_min_mem_or (xs : List ℚ) (a : ℚ) :
    xs.foldl min a = a ∨ xs.foldl min a ∈ xs := by
  induction xs generalizing a with
  | nil => left; rfl
  | cons x xs ih =>
    simp only [List.foldl_cons]
    rcases ih (min a x) with h | h
    · rcases le_total a x with hax | hxa
      · left; rw [h, min_eq_left hax]
      · right; rw [h, min_eq_right hxa]; exact List.mem_cons_self x xs
    · right; exact List.mem_cons_of_mem x h

/-- A `max`-fold dominates its initial accumulator. -/
theorem foldl_max_ge_acc (xs : List ℚ) (a : ℚ) : a ≤ xs.foldl max a := by
  induction xs generalizing a with
  | nil => simp
  | cons x xs ih =>
    exact le_trans (le_max_left a x) (ih (max a x))

/-- A `max`-fold dominates every list element. -/
theorem foldl_max_ge_of_mem {xs : List ℚ} {x : ℚ} (hx : x ∈ xs) (a : ℚ) :
    x ≤ xs.foldl max a := by
  induction xs generalizing a with
  | nil => cases hx
  | cons y ys ih =>
    rcases List.mem_cons.mp hx with rfl | hmem
    · exact le_trans (le_max_right a x) (foldl_max_ge_acc ys (max a x))
    · exact ih hmem (max a y)

/-- A `max`-fold returns the accumulator or a list element. -/
theorem foldl_max_mem_or (xs : List ℚ) (a : ℚ) :
    xs.foldl max a = a ∨ xs.foldl max a ∈ xs := by
  induction xs generalizing a with
  | nil => left; rfl
  | cons x xs ih =>
    simp only [List.foldl_cons]
    rcases ih (max a x) with h | h
    · rcases le_total a x with hax | hxa
      · right; rw [h, max_eq_right hax]; exact List.mem_cons_self x xs
      · left; rw [h, max_eq_left hxa]
    · right; exact List.mem_cons_of_mem x h

/-- `min(scores)` bounds every element from below. -/
theorem pyListMin_le {s : List ℚ} {x : ℚ} (hx : x ∈ s) : pyListMin s ≤ x := by
  cases s with
  | nil => cases hx
  | cons y ys =>
    rcases List.mem_cons.mp hx with rfl | hmem
    · exact foldl_min_le_acc ys x
    · exact foldl_min_le_of_mem hmem y

/-- `min(scores)` is attained on a non-empty list. -/
theorem pyListMin_mem {s : List ℚ} (hs : s ≠ []) : pyListMin s ∈ s := by
  cases s with
  | nil => exact absurd rfl hs
  | cons y ys =>
    rcases foldl_min_mem_or ys y with h | h
    · show ys.foldl min y ∈ y :: ys
      rw [h]; exact List.mem_cons_self y ys
    · exact List.mem_cons_of_mem y h

/-- `max(scores)` bounds every element from above. -/
theorem pyListMax_ge {s : List ℚ} {x : ℚ} (hx : x ∈ s) : x ≤ pyListMax s := by
  cases s with
  | nil => cases hx
  | cons y ys =>
    rcases List.mem_cons.mp hx with rfl | hmem
    · exact foldl_max_ge_acc ys x
    · exact foldl_max_ge_of_mem hmem y

/-- `max(scores)` is attained on a non-empty list. -/
theorem pyListMax_mem {s : List ℚ} (hs : s ≠ []) : pyListMax s ∈ s := by
  cases s with
  | nil => exact absurd rfl hs
  | cons y ys =>
    rcases foldl_max_mem_or ys y with h | h
    · show ys.foldl max y ∈ y :: ys
      rw [h]; exact List.mem_cons_self y ys
    · exact List.mem_cons_of_mem y h

/-- Inserting permutes to consing. -/
theorem insertLater_perm (x : PRec) (acc : List PRec) :
    List.Perm (insertLater x acc) (x :: acc) := by
  induction acc with
  | nil => rfl
  | cons y ys ih =>
    unfold insertLater
    split_ifs
    · exact (ih.cons y).trans (List.Perm.swap x y ys)
    · rfl

/-- The insertion-sort fold permutes to appending the input. -/
theorem sortDescAux_perm (l : List PRec) :
    ∀ acc : List PRec, List.Perm (sortDescAux acc l) (l ++ acc) := by
  induction l with
  | nil => intro acc; simp [sortDescAux]
  | cons x xs ih =>
    intro acc
    refine List.Perm.trans (ih (insertLater x acc)) ?_
    refine List.Perm.trans ((insertLater_perm x acc).append_left xs) ?_
    exact List.perm_middle

/-- Sorting permutes the input. -/
theorem sortDesc_perm (l : List PRec) : List.Perm (sortDesc l) l := by
  simpa using sortDescAux_perm l []

/-- Membership in an inserted list. -/
theorem mem_insertLater {z x : PRec} {acc : List PRec}
    (h : z ∈ insertLater x acc) : z = x ∨ z ∈ acc :=
  List.mem_cons.mp ((insertLater_perm x acc).mem_iff.mp h)

/-- Insertion preserves descending order (`value` anti-monotone along the
list). -/
theorem insertLater_sorted {x : PRec} {acc : List PRec}
    (h : acc.Pairwise (fun a b => b.value ≤ a.value)) :
    (insertLater x acc).Pairwise (fun a b => b.value ≤ a.value) := by
  induction acc with
  | nil => simp [insertLater]
  | cons y ys ih =>
    rcases List.pairwise_cons.mp h with ⟨hy, hys⟩
    unfold insertLater
    split_ifs with hge
    · refine List.pairwise_cons.mpr ⟨?_, ih hys⟩
      intro z hz
      rcases mem_insertLater hz with rfl | hz'
      · exact hge
      · exact hy z hz'
    · refine List.pairwise_cons.mpr ⟨?_, h⟩
      intro z hz
      rcases List.mem_cons.mp hz with rfl | hz'
      · exact le_of_lt (lt_of_not_ge hge)
      · exact le_trans (hy z hz') (le_of_lt (lt_of_not_ge hge))

/-- The insertion-sort fold yields a descending list. -/
theorem sortDescAux_sorted (l : List PRec) :
    ∀ acc : List PRec, acc.Pairwise (fun a b => b.value ≤ a.value) →
      (sortDescAux acc l).Pairwise (fun a b => b.value ≤ a.value) := by
  induction l with
  | nil => intro acc h; exact h
  | cons x xs ih =>
    intro acc h
    exact ih (insertLater x acc) (insertLater_sorted h)

/-- The sorted list is descending. -/
theorem sortDesc_sorted (l : List PRec) :
    (sortDesc l).Pairwise (fun a b => b.value ≤ a.value) :=
  sortDescAux_sorted l [] (by simp)

/-- In a strictly-descending list, the element at position `i` is exceeded
by exactly `i` elements of the list. -/
theorem countP_gt_of_sorted (l : List PRec)
    (h : l.Pairwise (fun a b => b.value < a.value)) :
    ∀ (i : Nat) (hi : i < l.length),
      l.countP (fun t => decide ((l.get ⟨i, hi⟩).value < t.value)) = i := by
  induction l with
  | nil => intro i hi; cases hi
  | cons y ys ih =>
    rcases List.pairwise_cons.mp h with ⟨hy, hys⟩
    intro i hi
    cases i with
    | zero =>
      apply List.countP_eq_zero.mpr
      intro t ht
      rcases List.mem_cons.mp ht with rfl | ht'
      · simp
      · simpa using not_lt_of_gt (hy t ht')
    | succ j =>
      have hj : j < ys.length := Nat.lt_of_succ_lt_succ hi
      have hget : (y :: ys).get ⟨j + 1, hi⟩ = ys.get ⟨j, hj⟩ := rfl
      rw [hget, List.countP_cons]
      have hyge : decide ((ys.get ⟨j, hj⟩).value < y.value) = true := by
        simpa using hy _ (ys.get_mem j hj)
      rw [ih hys j hj, hyge]
      simp

/-- Unfolding membership in the percentile-assignment loop: the pair's
stock sits at some position `i` of the walked list and its percentile is
the positional formula at index `k + i`. -/
theorem percentiles_from_mem {total : Nat} :
    ∀ {k : Nat} {l : List PRec} {st : PRec} {p : ℚ},
      (st, p) ∈ percentiles_from total k l →
      ∃ (i : Nat) (hi : i < l.length), l.get ⟨i, hi⟩ = st ∧
        p = (if total > 1 then
          100 * ((k + i : Nat) : ℚ) / ((total : ℚ) - 1) else 50) := by
  intro k l
  induction l generalizing k with
  | nil => intro st p h; cases h
  | cons y ys ih =>
    intro st p h
    rcases List.mem_cons.mp h with heq | hmem
    · have h1 : st = y := congrArg Prod.fst heq
      have h2 := congrArg Prod.snd heq
      refine ⟨0, by simp, by simpa using h1.symm, ?_⟩
      simpa using h2
    · obtain ⟨i, hi, hget, hp⟩ := ih hmem
      refine ⟨i + 1, Nat.succ_lt_succ hi, hget, ?_⟩
      have harith : k + 1 + i = k + (i + 1) := by omega
      rw [hp, harith]

/-- The stocks carried by the assignment are the walked list itself. -/
theorem percentiles_from_map_fst (total : Nat) :
    ∀ (k : Nat) (l : List PRec),
      (percentiles_from total k l).map Prod.fst = l := by
  intro k l
  induction l generalizing k with
  | nil => rfl
  | cons y ys ih => simp [percentiles_from, ih]

/-- The 429 wait computed by the code agrees everywhere with the amended
claim-side description (the only difference from the original claim being
the `60`-second case for a present non-numeric header). -/
theorem wait_seconds_eq_claim_wait_amended (st : LimiterState)
    (headers : Headers) (now : ℚ) :
    wait_seconds st headers now = claim_wait_amended st headers now := by
  unfold wait_seconds claim_wait_amended fallback_wait
  cases hh : headersGet headers "Retry-After" <|> headersGet headers "retry-after" with
  | none =>
    dsimp only
    cases st.last_429_time with
    | none => rfl
    | some t => dsimp only; split_ifs <;> norm_num
  | some ra =>
    dsimp only
    by_cases hra : ra = ""
    · subst hra
      have hd : pyIsDigit "" = false := by rfl
      simp only [beq_self_eq_true, if_true, hd, Bool.false_eq_true, if_false]
      cases st.last_429_time with
      | none => rfl
      | some t => dsimp only; split_ifs <;> norm_num
    · have hbeq : (ra == "") = false := by simp [hra]
      simp only [hbeq, Bool.false_eq_true, if_false]

/-- The attempt count of the fetch loop never exceeds the remaining
budget. -/
theorem fetch_loop_attempts_le (responses : Nat → Resp) (url : String)
    (cache : Cache) :
    ∀ (fuel retries : Nat),
      (fetch_loop responses url cache retries fuel).attempts ≤
        retries + fuel := by
  intro fuel
  induction fuel with
  | zero => intro r; simp [fetch_loop]
  | succ n ih =>
    intro r
    unfold fetch_loop
    cases responses r <;>
      first
        | (simp only []; omega)
        | exact le_trans (ih (r + 1)) (by omega)

/-- When every attempt fails retryably, the loop exhausts its budget and
returns `None` with the cache untouched. -/
theorem fetch_loop_all_retryable (responses : Nat → Resp) (url : String)
    (cache : Cache) (h : ∀ i, (responses i).retryable = true) :
    ∀ (fuel retries : Nat),
      fetch_loop responses url cache retries fuel =
        ⟨none, cache, retries + fuel⟩ := by
  intro fuel
  induction fuel with
  | zero => intro r; simp [fetch_loop]
  | succ n ih =>
    intro r
    unfold fetch_loop
    have hr := h r
    have harith : r + 1 + n = r + (n + 1) := by omega
    cases hresp : responses r
    case ok p => rw [hresp] at hr; simp [Resp.retryable] at hr
    case notFound => rw [hresp] at hr; simp [Resp.retryable] at hr
    all_goals rw [ih (r + 1), harith]

/-- Every binding of `copyKeyWith d key f` carries exactly `key`. -/
theorem fst_of_mem_copyKeyWith {d : Dict} {key : String} {f : CVal → CVal}
    {kv : String × CVal} (h : kv ∈ copyKeyWith d key f) : kv.1 = key := by
  unfold copyKeyWith at h
  cases hk : dictGet d key <;> rw [hk] at h <;> simp_all

/-- Every key of the filtered comprehensive bundle belongs to the fixed
enumeration of keys the filter writes. -/
theorem filter_comprehensive_keys (cutoff : Nat) (daysAgo : ℤ) (d : Dict)
    (kv : String × CVal)
    (h : kv ∈ filter_comprehensive_data_historical cutoff daysAgo d) :
    kv.1 ∈ ["income_statements", "balance_sheets", "cash_flow_statements",
      "ratios", "key_metrics", "ratios_ttm", "key_metrics_ttm", "earnings",
      "historical_prices", "profile", "quote", "analyst_ratings",
      "insider_trading"] := by
  unfold filter_comprehensive_data_historical at h
  simp only [List.mem_append] at h
  rcases h with (((((((((((h | h) | h) | h) | h) | h) | h) | h) | h) | h) | h) | h) <;>
    first
      | simp [fst_of_mem_copyKeyWith h]
      | (split at h <;> simp only [List.mem_cons, List.not_mem_nil, or_false] at h <;>
          rcases h with rfl | rfl <;> simp)

/-- The filtered bundle never contains a given key outside the enumeration. -/
theorem dictGet_filter_comprehensive_eq_none (cutoff : Nat) (daysAgo : ℤ)
    (d : Dict) (k : String)
    (hk : k ∉ (["income_statements", "balance_sheets", "cash_flow_statements",
      "ratios", "key_metrics", "ratios_ttm", "key_metrics_ttm", "earnings",
      "historical_prices", "profile", "quote", "analyst_ratings",
      "insider_trading"] : List String)) :
    dictGet (filter_comprehensive_data_historical cutoff daysAgo d) k = none := by
  unfold dictGet
  rw [Option.map_eq_none', List.find?_eq_none]
  intro kv hkv hbeq
  have hk1 : kv.1 = k := eq_of_beq hbeq
  exact hk (hk1 ▸ filter_comprehensive_keys cutoff daysAgo d kv hkv)

end StockScreener

/-- C3: for every list of financial-statement rows and every `as_of` date, the
point-in-time filter keeps a row iff `max(filling_date, reported_date) ≤ as_of`
(each date falling back to the row's `date` field when absent) and drops a row
in which neither date is present; with `as_of = 2023-06-30`, a row
`{date: 2023-03-31, fillingDate: 2023-07-15}` is dropped and a row
`{date: 2023-03-31, fillingDate: 2023-05-01}` is kept. -/
theorem C3_point_in_time_filter :
    (∀ (asOf : Nat) (stmts : List StockScreener.Stmt),
      StockScreener.filter_financial_statements asOf stmts =
        stmts.filter (StockScreener.claim_keep asOf)) ∧
    StockScreener.filter_financial_statements 20230630
      [⟨some 20230331, some 20230715, none⟩, ⟨some 20230331, some 20230501, none⟩] =
      [⟨some 20230331, some 20230501, none⟩] := by
  exact ⟨StockScreener.filter_financial_statements_eq_filter, by decide⟩

/-- C10: for every comprehensive-data bundle and every as-of date, the
dictionary returned by `filter_comprehensive_data_historical` never contains
the keys `earnings_calendar` or `social_sentiment` (filtered earnings are
written under `earnings` and only an enumerated list of other keys is
copied), so `prepare_earnings_info` and `prepare_sentiment_info` applied to
the filtered bundle always return `None`. -/
theorem C10_filtered_bundle_has_no_calendar_or_sentiment :
    ∀ (cutoff : Nat) (daysAgo : ℤ) (d : StockScreener.Dict),
      StockScreener.dictGet
        (StockScreener.filter_comprehensive_data_historical cutoff daysAgo d)
        "earnings_calendar" = none ∧
      StockScreener.dictGet
        (StockScreener.filter_comprehensive_data_historical cutoff daysAgo d)
        "social_sentiment" = none ∧
      StockScreener.prepare_earnings_info
        (StockScreener.filter_comprehensive_data_historical cutoff daysAgo d) = none ∧
      StockScreener.prepare_sentiment_info
        (StockScreener.filter_comprehensive_data_historical cutoff daysAgo d) = none := by
  intro cutoff daysAgo d
  have h1 := StockScreener.dictGet_filter_comprehensive_eq_none cutoff daysAgo d
    "earnings_calendar" (by decide)
  have h2 := StockScreener.dictGet_filter_comprehensive_eq_none cutoff daysAgo d
    "social_sentiment" (by decide)
  refine ⟨h1, h2, ?_, ?_⟩
  · unfold StockScreener.prepare_earnings_info
    rw [h1]
  · unfold StockScreener.prepare_sentiment_info
    rw [h2]

/-- C1: the claim states the growth analyzer's CAGR is computed with
`n = len - 1`, giving `revenue_cagr = 0.10` on `revenue = [121, 110, 100]`.
The code passes `periods = len(series)` instead, so on that input it
computes `(121/100) ** (1/3) - 1 ≈ 0.0656`, which is not `0.10`. -/
theorem C1_cagr_period_is_len_not_len_minus_one :
    StockScreener.revenue_cagr [121, 110, 100] =
      (121 / 100 : ℝ) ^ ((1 : ℝ) / 3) - 1 ∧
    StockScreener.revenue_cagr [121, 110, 100] ≠ 1 / 10 := by
  have hval : StockScreener.revenue_cagr [121, 110, 100] =
      (121 / 100 : ℝ) ^ ((1 : ℝ) / 3) - 1 := by
    unfold StockScreener.revenue_cagr StockScreener.calculate_cagr
    norm_num [List.getLastD]
  refine ⟨hval, ?_⟩
  intro h
  rw [hval, sub_eq_iff_eq_add] at h
  have h3 : ((121 / 100 : ℝ) ^ ((1 : ℝ) / 3)) ^ (3 : ℕ) = 121 / 100 := by
    rw [← Real.rpow_natCast _ 3, ← Real.rpow_mul (by norm_num)]
    norm_num
  rw [h] at h3
  norm_num at h3

/-- C2: the claim states every analyzer sub-score lies in `[0, 1]` before the
coherence multiplier.  On a `FinancialMetrics` whose revenue series is
`[104060401, 103000000, 101000000, 100000000]` (revenue CAGR exactly `0.01`)
with the default target `0.20`, the revenue magnitude sub-score equals
`0.5 * (1 + log(0.15) / log 2) ≈ -0.87 < 0`, contradicting both the claim
and the function's own docstring (`Magnitude score between 0 and 1`). -/
theorem C2_magnitude_subscore_can_be_negative :
    StockScreener.revenue_cagr [104060401, 103000000, 101000000, 100000000] =
      1 / 100 ∧
    StockScreener.magnitude_score_revenue
      [104060401, 103000000, 101000000, 100000000] < 0 := by
  have hbase : (104060401 / 100000000 : ℝ) = (101 / 100 : ℝ) ^ (4 : ℕ) := by
    norm_num
  have hcagr : StockScreener.revenue_cagr
      [104060401, 103000000, 101000000, 100000000] = 1 / 100 := by
    unfold StockScreener.revenue_cagr StockScreener.calculate_cagr
    norm_num [List.getLastD]
    rw [show ((104060401 : ℝ)) / 100000000 = (101 / 100 : ℝ) ^ (4 : ℕ) by norm_num]
    have h4 := StockScreener.pow_rpow_one_div (101 / 100 : ℝ) (by norm_num) 4
      (by norm_num)
    push_cast at h4
    rw [h4]
    norm_num
  refine ⟨hcagr, ?_⟩
  unfold StockScreener.magnitude_score_revenue
  rw [hcagr]
  unfold StockScreener.calculate_magnitude_score
  have harg : (1 / 100 : ℝ) / 0.20 + 0.1 = 0.15 := by norm_num
  have hlog2 : 0 < Real.log 2 := Real.log_pos (by norm_num)
  have hlt : Real.log 0.15 < -Real.log 2 := by
    have h1 : Real.log 0.15 < Real.log (1 / 2) :=
      Real.log_lt_log (by norm_num) (by norm_num)
    rwa [one_div, Real.log_inv] at h1
  have hratio : Real.log 0.15 / Real.log 2 < -1 := by
    rw [div_lt_iff₀ hlog2]
    linarith
  rw [if_neg (by norm_num), if_neg (by norm_num), if_neg (by norm_num), harg]
  nlinarith

/-- C5 counterexample: the claim states that of the profiles `AAPL`, `QQQX`
and `ABC` (exchange `MUTUAL`), all within the market-cap bounds, only
`AAPL` survives initial filtering.  `QQQX` has four letters, so the
"5-letter symbols ending in X" rule does not fire and `QQQX` survives as
well. -/
theorem C5_counterexample_qqqx_survives :
    (StockScreener.screen_initial_filter StockScreener.s6_filters
      StockScreener.s6_profile_map ["AAPL", "QQQX", "ABC"]).map
        (fun fs => fs.symbol) ≠ ["AAPL"] := by decide

/-- C5 (amended): the initial filter keeps exactly the symbols with a known
profile that are not 5-letter symbols ending in `X`, whose exchange string
does not contain `MUTUAL` or `FUND` case-insensitively, whose market cap
is present, non-zero and within the configured bounds, and that are not in
an excluded sector; of the S6 profiles, `AAPL` and `QQQX` survive (the
4-letter `QQQX` is not caught by the 5-letter rule). -/
theorem C5_initial_filter_keeps_exactly :
    (∀ (f : StockScreener.InitialFilters)
      (po : String → Option StockScreener.Profile) (stocks : List String),
      (StockScreener.screen_initial_filter f po stocks).map
          (fun fs => fs.symbol) =
        stocks.filter (StockScreener.claim_keep_stock f po)) ∧
    (StockScreener.screen_initial_filter StockScreener.s6_filters
      StockScreener.s6_profile_map ["AAPL", "QQQX", "ABC"]).map
        (fun fs => fs.symbol) = ["AAPL", "QQQX"] :=
  ⟨StockScreener.screen_initial_filter_symbols, by decide⟩

/-- C6 counterexample: with configured `scoring.weights`
`{0.8, 0.5, 0.4, 0.3}` (sum `2.0`), the scorer uses the weights verbatim —
their sum is `2`, not `1` — and the weighted sum of four perfect axis
scores is `2.0` rather than the `1.0` a renormalized weighting would
give. -/
theorem C6_counterexample_weights_not_renormalized :
    StockScreener.scorer_weights
        (some ⟨8/10, 5/10, 4/10, 3/10⟩) = ⟨8/10, 5/10, 4/10, 3/10⟩ ∧
    (StockScreener.scorer_weights (some ⟨8/10, 5/10, 4/10, 3/10⟩)).total ≠ 1 ∧
    StockScreener.base_quality_score
      (StockScreener.scorer_weights (some ⟨8/10, 5/10, 4/10, 3/10⟩))
      1 1 1 1 = 2 := by
  refine ⟨rfl, ?_, ?_⟩ <;>
    simp [StockScreener.scorer_weights, StockScreener.ScoringWeights.total,
      StockScreener.base_quality_score] <;> norm_num

/-- C6 (amended): the scorer uses the configured `scoring.weights` verbatim
with no renormalization anywhere, so the axis weights used sum to `1.0`
only when configured so; the default weights `{0.40, 0.25, 0.20, 0.15}` do
sum to `1.0`, and the weighted base-quality sum at unit axis scores equals
the (raw) weight total. -/
theorem C6_weights_used_verbatim :
    StockScreener.default_scoring_weights.total = 1 ∧
    StockScreener.scorer_weights none = StockScreener.default_scoring_weights ∧
    (∀ w : StockScreener.ScoringWeights,
      StockScreener.scorer_weights (some w) = w) ∧
    (∀ w : StockScreener.ScoringWeights,
      StockScreener.base_quality_score w 1 1 1 1 = w.total) := by
  refine ⟨?_, rfl, fun w => rfl, fun w => ?_⟩
  · simp [StockScreener.default_scoring_weights, StockScreener.ScoringWeights.total]
    norm_num
  unfold StockScreener.base_quality_score StockScreener.ScoringWeights.total
  ring

/-- C9: over every non-empty surviving batch, the normalized score is
`(x - min) / (max - min)` when `max > min` and `1.0` for every result when
the range is zero; normalization is monotone non-decreasing in the raw
score, and when the range is positive the normalized scores lie in
`[0, 1]`, the minimum raw score maps to `0` and the maximum to `1` (both
attained in the batch). -/
theorem C9_batch_normalization (s : List ℚ) (hs : s ≠ []) :
    StockScreener.normalize_quality_scores s =
      s.map (StockScreener.norm_of s) ∧
    (∀ x ∈ s, ∀ y ∈ s, x ≤ y →
      StockScreener.norm_of s x ≤ StockScreener.norm_of s y) ∧
    (StockScreener.pyListMax s - StockScreener.pyListMin s > 0 →
      (∀ x ∈ s, StockScreener.norm_of s x =
        (x - StockScreener.pyListMin s) /
          (StockScreener.pyListMax s - StockScreener.pyListMin s)) ∧
      StockScreener.norm_of s (StockScreener.pyListMin s) = 0 ∧
      StockScreener.norm_of s (StockScreener.pyListMax s) = 1 ∧
      StockScreener.pyListMin s ∈ s ∧
      StockScreener.pyListMax s ∈ s ∧
      (∀ x ∈ s, 0 ≤ StockScreener.norm_of s x ∧
        StockScreener.norm_of s x ≤ 1)) ∧
    (StockScreener.pyListMax s - StockScreener.pyListMin s = 0 →
      ∀ x ∈ s, StockScreener.norm_of s x = 1) := by
  refine ⟨rfl, ?_, ?_, ?_⟩
  · intro x hx y hy hxy
    unfold StockScreener.norm_of
    by_cases h : StockScreener.pyListMax s - StockScreener.pyListMin s > 0
    · simp only [h, if_true]
      exact div_le_div_of_nonneg_right (sub_le_sub_right hxy _) (le_of_lt h)
    · simp [h]
  · intro h
    refine ⟨fun x hx => by simp [StockScreener.norm_of, h], ?_, ?_,
      StockScreener.pyListMin_mem hs, StockScreener.pyListMax_mem hs, ?_⟩
    · simp [StockScreener.norm_of, h]
    · simp [StockScreener.norm_of, h]
      exact div_self (ne_of_gt h)
    · intro x hx
      constructor
      · simp only [StockScreener.norm_of, h, if_true]
        exact div_nonneg
          (sub_nonneg.mpr (StockScreener.pyListMin_le hx)) (le_of_lt h)
      · simp only [StockScreener.norm_of, h, if_true]
        exact (div_le_one h).mpr
          (sub_le_sub_right (StockScreener.pyListMax_ge hx) _)
  · intro h x hx
    simp [StockScreener.norm_of, h]

/-- Witness for C9 at the concrete batch `[1, 3, 2]`. -/
theorem C9_batch_normalization_witness :
    (([1, 3, 2] : List ℚ) ≠ []) ∧
    (StockScreener.normalize_quality_scores [1, 3, 2] =
      ([1, 3, 2] : List ℚ).map (StockScreener.norm_of [1, 3, 2]) ∧
    (∀ x ∈ ([1, 3, 2] : List ℚ), ∀ y ∈ ([1, 3, 2] : List ℚ), x ≤ y →
      StockScreener.norm_of [1, 3, 2] x ≤ StockScreener.norm_of [1, 3, 2] y) ∧
    (StockScreener.pyListMax [1, 3, 2] - StockScreener.pyListMin [1, 3, 2] > 0 →
      (∀ x ∈ ([1, 3, 2] : List ℚ), StockScreener.norm_of [1, 3, 2] x =
        (x - StockScreener.pyListMin [1, 3, 2]) /
          (StockScreener.pyListMax [1, 3, 2] -
            StockScreener.pyListMin [1, 3, 2])) ∧
      StockScreener.norm_of [1, 3, 2] (StockScreener.pyListMin [1, 3, 2]) = 0 ∧
      StockScreener.norm_of [1, 3, 2] (StockScreener.pyListMax [1, 3, 2]) = 1 ∧
      StockScreener.pyListMin [1, 3, 2] ∈ ([1, 3, 2] : List ℚ) ∧
      StockScreener.pyListMax [1, 3, 2] ∈ ([1, 3, 2] : List ℚ) ∧
      (∀ x ∈ ([1, 3, 2] : List ℚ), 0 ≤ StockScreener.norm_of [1, 3, 2] x ∧
        StockScreener.norm_of [1, 3, 2] x ≤ 1)) ∧
    (StockScreener.pyListMax [1, 3, 2] - StockScreener.pyListMin [1, 3, 2] = 0 →
      ∀ x ∈ ([1, 3, 2] : List ℚ), StockScreener.norm_of [1, 3, 2] x = 1)) :=
  ⟨by simp, C9_batch_normalization [1, 3, 2] (by simp)⟩

/-- C7 counterexample: on a 429 carrying `Retry-After: soon` (present but
non-numeric) with no prior 429, the code waits `60` seconds, while the
claim's "otherwise wait = 30 if a prior 429 occurred within the last 10
seconds, else wait = 10" predicts `10`. -/
theorem C7_counterexample_nonnumeric_retry_after :
    StockScreener.wait_seconds ⟨none, none⟩ [("Retry-After", "soon")] 0 = 60 ∧
    StockScreener.claim_wait ⟨none, none⟩ [("Retry-After", "soon")] 0 = 10 ∧
    (StockScreener.handle_response ⟨none, none⟩ 429
        [("Retry-After", "soon")] 0).backoff_until ≠
      some (0 + StockScreener.claim_wait ⟨none, none⟩
        [("Retry-After", "soon")] 0) := by
  have hget : StockScreener.headersGet [("Retry-After", "soon")] "Retry-After" =
      some "soon" := rfl
  have hd : StockScreener.pyIsDigit "soon" = false := by rfl
  refine ⟨?_, ?_, ?_⟩
  · simp [StockScreener.wait_seconds, StockScreener.headersGet, hd]
  · simp [StockScreener.claim_wait, StockScreener.headersGet, hd]
  · simp [StockScreener.handle_response, StockScreener.wait_seconds,
      StockScreener.claim_wait, StockScreener.headersGet, hd]

/-- C7 (amended): on every 429, `handle_response` sets
`last_429_time = now` and `backoff_until = now + wait`, where `wait` is the
`Retry-After` value when that header is present and numeric, `60` when it
is present but non-numeric, and otherwise `30` if a prior 429 occurred
within the last 10 seconds, else `10`; in particular two 429 responses 5
seconds apart with no `Retry-After` header leave
`backoff_until = now + 30 = 35` after the second. -/
theorem C7_429_backoff :
    (∀ (st : StockScreener.LimiterState) (headers : StockScreener.Headers)
      (now : ℚ),
      StockScreener.handle_response st 429 headers now =
        ⟨some now, some (now + StockScreener.claim_wait_amended st headers now)⟩) ∧
    StockScreener.handle_response
      (StockScreener.handle_response ⟨none, none⟩ 429 [] 0) 429 [] 5 =
      ⟨some 5, some 35⟩ := by
  constructor
  · intro st headers now
    unfold StockScreener.handle_response
    simp [StockScreener.wait_seconds_eq_claim_wait_amended]
  · have h1 : StockScreener.handle_response ⟨none, none⟩ 429 [] 0 =
        ⟨some 0, some 10⟩ := by
      simp [StockScreener.handle_response, StockScreener.wait_seconds,
        StockScreener.fallback_wait, StockScreener.headersGet]
    rw [h1]
    simp [StockScreener.handle_response, StockScreener.wait_seconds,
      StockScreener.fallback_wait, StockScreener.headersGet]
    norm_num

/-- C8: with a cold cache, `fetch` returns `None` after a single attempt on
a 404 (no retry); retries 429/HTTP/timeout/transport failures with at most
`MAX_RETRIES = 3` attempts in total, returning `None` when the budget is
exhausted; and on a 200 stores the payload in the cache and returns it. -/
theorem C8_fetch_retry_contract (responses : Nat → StockScreener.Resp)
    (url : String) (cache : StockScreener.Cache)
    (hmiss : StockScreener.cacheGet cache url = none) :
    (responses 0 = .notFound →
      StockScreener.fetch responses url cache = ⟨none, cache, 1⟩) ∧
    ((∀ i, (responses i).retryable = true) →
      StockScreener.fetch responses url cache = ⟨none, cache, 3⟩) ∧
    (∀ p, responses 0 = .ok p →
      StockScreener.fetch responses url cache =
        ⟨some p, StockScreener.cacheSet cache url p, 1⟩ ∧
      StockScreener.cacheGet (StockScreener.cacheSet cache url p) url = some p) ∧
    (StockScreener.fetch responses url cache).attempts ≤
      StockScreener.MAX_RETRIES := by
  have hfetch : StockScreener.fetch responses url cache =
      StockScreener.fetch_loop responses url cache 0 StockScreener.MAX_RETRIES := by
    unfold StockScreener.fetch
    rw [hmiss]
  refine ⟨?_, ?_, ?_, ?_⟩
  · intro h404
    rw [hfetch]
    show StockScreener.fetch_loop responses url cache 0 3 = ⟨none, cache, 1⟩
    unfold StockScreener.fetch_loop
    rw [h404]
  · intro hall
    rw [hfetch]
    exact StockScreener.fetch_loop_all_retryable responses url cache hall
      StockScreener.MAX_RETRIES 0
  · intro p hok
    refine ⟨?_, by simp [StockScreener.cacheGet, StockScreener.cacheSet]⟩
    rw [hfetch]
    show StockScreener.fetch_loop responses url cache 0 3 =
      ⟨some p, StockScreener.cacheSet cache url p, 1⟩
    unfold StockScreener.fetch_loop
    rw [hok]
  · rw [hfetch]
    exact StockScreener.fetch_loop_attempts_le responses url cache
      StockScreener.MAX_RETRIES 0

/-- Witness for C8 with a cold cache, URL `"u"` and every attempt answering
404. -/
theorem C8_fetch_retry_contract_witness :
    StockScreener.cacheGet [] "u" = none ∧
    ((StockScreener.Resp.notFound = .notFound →
      StockScreener.fetch (fun _ => StockScreener.Resp.notFound) "u" [] =
        ⟨none, [], 1⟩) ∧
    ((∀ i : Nat, ((fun _ => StockScreener.Resp.notFound) i).retryable = true) →
      StockScreener.fetch (fun _ => StockScreener.Resp.notFound) "u" [] =
        ⟨none, [], 3⟩) ∧
    (∀ p, StockScreener.Resp.notFound = .ok p →
      StockScreener.fetch (fun _ => StockScreener.Resp.notFound) "u" [] =
        ⟨some p, StockScreener.cacheSet [] "u" p, 1⟩ ∧
      StockScreener.cacheGet (StockScreener.cacheSet [] "u" p) "u" = some p) ∧
    (StockScreener.fetch (fun _ => StockScreener.Resp.notFound) "u" []).attempts ≤
      StockScreener.MAX_RETRIES) :=
  ⟨rfl, C8_fetch_retry_contract (fun _ => StockScreener.Resp.notFound) "u" [] rfl⟩

/-- C4 counterexample: in a two-stock sector group with distinct
`quality_score` values `2 > 1`, the code assigns the HIGHEST-valued issuer
percentile `0` and the lowest percentile `100` — the claim says the highest
receives `100` and the lowest `0`. -/
theorem C4_counterexample_best_gets_zero :
    StockScreener.calculate_metric_percentiles [⟨0, 2⟩, ⟨1, 1⟩] =
      [(⟨0, 2⟩, 0), (⟨1, 1⟩, 100)] ∧ ((0 : ℚ) ≠ 100) := by
  constructor
  · simp [StockScreener.calculate_metric_percentiles, StockScreener.sortDesc,
      StockScreener.sortDescAux, StockScreener.insertLater,
      StockScreener.percentiles_from]
    norm_num
  · norm_num

/-- C4 (amended): for every sector group with pairwise-distinct values of a
higher-is-better metric, the percentile annotation pairs each issuer (the
assignment's first components are a permutation of the group) with
`100` times the fraction of its peers that OUTRANK it: the issuer with the
highest value receives `0` and the one with the lowest value receives
`100`. -/
theorem C4_sector_percentile_ranks (stocks : List StockScreener.PRec)
    (hdist : stocks.Pairwise (fun a b => a.value ≠ b.value)) :
    List.Perm
      ((StockScreener.calculate_metric_percentiles stocks).map Prod.fst)
      stocks ∧
    (2 ≤ stocks.length →
      ∀ (st : StockScreener.PRec) (p : ℚ),
        (st, p) ∈ StockScreener.calculate_metric_percentiles stocks →
        p = 100 * (stocks.countP (fun t => decide (st.value < t.value)) : ℚ) /
          ((stocks.length : ℚ) - 1)) := by
  have hperm := StockScreener.sortDesc_perm stocks
  constructor
  · rw [StockScreener.calculate_metric_percentiles,
      StockScreener.percentiles_from_map_fst]
    exact hperm
  · intro hlen st p hmem
    obtain ⟨i, hi, hget, hp⟩ := StockScreener.percentiles_from_mem hmem
    have hlenL : (StockScreener.sortDesc stocks).length = stocks.length :=
      hperm.length_eq
    have htotal : (StockScreener.sortDesc stocks).length > 1 := by
      rw [hlenL]; omega
    have hdistL : (StockScreener.sortDesc stocks).Pairwise
        (fun a b => a.value ≠ b.value) :=
      ((hperm.pairwise_iff (fun h => Ne.symm h)).mpr hdist)
    have hstrict : (StockScreener.sortDesc stocks).Pairwise
        (fun a b => b.value < a.value) :=
      ((StockScreener.sortDesc_sorted stocks).and hdistL).imp
        (fun hab => lt_of_le_of_ne hab.1 hab.2.symm)
    have hcount := StockScreener.countP_gt_of_sorted _ hstrict i hi
    rw [hget] at hcount
    have hcount' : stocks.countP (fun t => decide (st.value < t.value)) = i := by
      rw [← hperm.countP_eq]
      exact hcount
    rw [hp, if_pos htotal, hlenL, hcount']
    norm_num

/-- Witness for C4 at the two-stock group with values `2` and `1`. -/
theorem C4_sector_percentile_ranks_witness :
    ([⟨0, 2⟩, ⟨1, 1⟩] : List StockScreener.PRec).Pairwise
      (fun a b => a.value ≠ b.value) ∧
    (List.Perm
      ((StockScreener.calculate_metric_percentiles
        [⟨0, 2⟩, ⟨1, 1⟩]).map Prod.fst) [⟨0, 2⟩, ⟨1, 1⟩] ∧
    (2 ≤ ([⟨0, 2⟩, ⟨1, 1⟩] : List StockScreener.PRec).length →
      ∀ (st : StockScreener.PRec) (p : ℚ),
        (st, p) ∈ StockScreener.calculate_metric_percentiles [⟨0, 2⟩, ⟨1, 1⟩] →
        p = 100 * (([⟨0, 2⟩, ⟨1, 1⟩] : List StockScreener.PRec).countP
            (fun t => decide (st.value < t.value)) : ℚ) /
          ((([⟨0, 2⟩, ⟨1, 1⟩] : List StockScreener.PRec).length : ℚ) - 1))) :=
  ⟨by decide, C4_sector_percentile_ranks [⟨0, 2⟩, ⟨1, 1⟩] (by decide)⟩
